import Mathlib

/-!
Verification of the Doppler-shift arithmetic of `Ham-Doppler-Calc`
(`src/doppler.py`), shallowly embedded over exact rational arithmetic.

Modelling conventions:
* Python floats are embedded as exact rationals (`ℚ`).
* The external `ephem` satellite/observer pair is modelled by the function
  `Sat.range_velocity : ℚ → ℚ`, giving the range velocity (m/s) that
  `sat.compute(obs)` produces when the observer's date is `d` (in days).
* Python `/` raises `ZeroDivisionError` on a zero divisor; where a claim is
  about that behaviour the division is embedded as `pydiv`, returning
  `Except`.  Elsewhere division is total `ℚ` division, with the relevant
  non-zero side conditions carried as hypotheses.
* Python tuple unpacking of three names from a sequence raises `ValueError`
  unless the sequence has exactly three elements; `unpack3` embeds this.
* The unbounded `while` loop of `next_high_pass` is embedded fuel-indexed:
  `none` means the loop is still running after the given number of
  iterations, `some r` means it returned `r`.
-/

namespace HamDoppler

/-- Speed of light in m/s (src/doppler.py line 5). -/
def C : ℚ := 299792458

/-- One hour in days (src/doppler.py line 6). -/
def HOUR : ℚ := 1 / 24

/-- One minute in days (src/doppler.py line 7). -/
def MINUTE : ℚ := HOUR / 60

/-- One second in days (src/doppler.py line 8). -/
def SECOND : ℚ := MINUTE / 60

/-- The exact value of the IEEE-754 double `math.pi`. -/
def MATH_PI : ℚ := 884279719003555 / 281474976710656

/-- `doppler_shift(f0, vel)` (src/doppler.py lines 21-26):
frequency `f0` in MHz, relative velocity `vel` in m/s, result in Hz. -/
def doppler_shift (f0 : ℚ) (vel : ℚ) : ℚ :=
  let f0h := f0 * 1000000
  let f := (C / (C + vel)) * f0h
  let shift := f0h - f
  shift

/-- `doppler_convert(f_orig, f_shift, f_new)` (src/doppler.py lines 58-66). -/
def doppler_convert (f_orig : ℚ) (f_shift : ℚ) (f_new : ℚ) : ℚ :=
  let fo := f_orig * 1000000
  let fn := f_new * 1000000
  let f := fo + f_shift
  let doppler_const := f / fo
  let f_new_shift := doppler_const * fn
  let new_shift := f_new_shift - fn
  new_shift

/-- Model of the external `ephem` observer/satellite pair: `range_velocity d`
is the range velocity (m/s, positive = receding) that `sat.compute(obs)`
yields when the observer's date is set to `d` (days). -/
structure Sat where
  range_velocity : ℚ → ℚ

/-- `compute_doppler(obs, sat, rx_freq, tx_freq)` (src/doppler.py lines
84-90), with the observer's date made explicit.  Returns
`(rx_shift, tx_shift)` in Hz. -/
def compute_doppler (sat : Sat) (date : ℚ) (rx_freq tx_freq : ℚ) : ℚ × ℚ :=
  let velocity := sat.range_velocity date
  let tx_shift := doppler_shift tx_freq velocity
  let rx_shift := doppler_shift rx_freq (-1 * velocity)
  (rx_shift, tx_shift)

/-- Python division: raises `ZeroDivisionError` on a zero divisor. -/
def pydiv (a b : ℚ) : Except String ℚ :=
  if b = 0 then Except.error "ZeroDivisionError" else Except.ok (a / b)

/-- `compute_doppler_freqs(obs, sat, AOS, LOS, channels, rx_freq, tx_freq)`
(src/doppler.py lines 114-132).  The two interval divisions are embedded
with `pydiv` because they can divide by zero. -/
def compute_doppler_freqs (sat : Sat) (AOS LOS : ℚ) (channels : ℤ)
    (rx_freq tx_freq : ℚ) : Except String (List (ℚ × ℚ)) :=
  let s := compute_doppler sat AOS rx_freq tx_freq
  let e := compute_doppler sat LOS rx_freq tx_freq
  match pydiv (e.1 - s.1) ((channels : ℚ) - 1) with
  | Except.error err => Except.error err
  | Except.ok rx_interval =>
    match pydiv (e.2 - s.2) ((channels : ℚ) - 1) with
    | Except.error err => Except.error err
    | Except.ok tx_interval =>
      Except.ok ((List.range channels.toNat).map fun (interval : ℕ) =>
        (rx_freq + (s.1 + rx_interval * (interval : ℚ)) / 1000000,
         tx_freq + (s.2 + tx_interval * (interval : ℚ)) / 1000000))

/-- A Python pair is a sequence of two values; tuple unpacking inspects its
length at run time. -/
def tuple2ToList (p : ℚ × ℚ) : List ℚ := [p.1, p.2]

/-- Python unpacking of three names from a sequence: raises `ValueError`
unless the sequence has exactly three elements. -/
def unpack3 (l : List ℚ) : Except String (ℚ × ℚ × ℚ) :=
  match l with
  | [a, b, c] => Except.ok (a, b, c)
  | _ => Except.error "ValueError"

/-- `int(pass_length // SECOND)`: the number of whole seconds in the pass
(src/doppler.py lines 156-157 and 204-205). -/
def intervalsOf (AOS LOS : ℚ) : ℤ := ⌊(LOS - AOS) / SECOND⌋

/-- The `for` loop of `compute_shift_graph` (src/doppler.py lines 159-162):
each iteration unpacks three names from the two-element result of
`compute_doppler`. -/
def shift_graph_loop (sat : Sat) (AOS rx_freq tx_freq : ℚ) :
    List ℕ → List (ℕ × ℚ × ℚ) → Except String (List (ℕ × ℚ × ℚ))
  | [], out_data => Except.ok out_data
  | i :: rest, out_data =>
    match unpack3 (tuple2ToList
        (compute_doppler sat (AOS + (i : ℚ) * SECOND) rx_freq tx_freq)) with
    | Except.error err => Except.error err
    | Except.ok (rx_shift, tx_shift, _velocity) =>
      shift_graph_loop sat AOS rx_freq tx_freq rest
        (out_data ++ [(i, rx_shift, tx_shift)])

/-- `compute_shift_graph(obs, sat, AOS, LOS, rx_freq, tx_freq)`
(src/doppler.py lines 154-164). -/
def compute_shift_graph (sat : Sat) (AOS LOS rx_freq tx_freq : ℚ) :
    Except String (List (ℕ × ℚ × ℚ)) :=
  shift_graph_loop sat AOS rx_freq tx_freq
    (List.range (intervalsOf AOS LOS).toNat) []

/-- The loop of `best_channel(freq, mems)` (src/doppler.py lines 170-179):
arguments are the remaining channels, the index of the head of the
remainder, and the loop variables `best` and `best_diff`. -/
def best_channel_aux (freq : ℚ) : List (ℚ × ℚ) → ℕ → ℤ → ℚ → ℤ
  | [], _, best, _ => best
  | m :: rest, i, best, best_diff =>
    let diff := |m.1 - freq|
    if diff < best_diff ∨ best = -1 then
      best_channel_aux freq rest (i + 1) (i : ℤ) diff
    else
      best_channel_aux freq rest (i + 1) best best_diff

/-- `best_channel(freq, mems)` (src/doppler.py lines 170-179). -/
def best_channel (freq : ℚ) (mems : List (ℚ × ℚ)) : ℤ :=
  best_channel_aux freq mems 0 (-1) 0

/-- The Doppler-shifted receive frequency in MHz at whole second `i` of the
pass (src/doppler.py lines 208-210). -/
def shifted_rx_at (sat : Sat) (AOS rx_freq tx_freq : ℚ) (i : ℕ) : ℚ :=
  rx_freq +
    (compute_doppler sat (AOS + (i : ℚ) * SECOND) rx_freq tx_freq).1 / 1000000

/-- The Doppler-shifted transmit frequency in MHz at whole second `i` of the
pass (src/doppler.py lines 208-211). -/
def shifted_tx_at (sat : Sat) (AOS rx_freq tx_freq : ℚ) (i : ℕ) : ℚ :=
  tx_freq +
    (compute_doppler sat (AOS + (i : ℚ) * SECOND) rx_freq tx_freq).2 / 1000000

/-- Loop state of `compute_shift_times`: the currently selected channel
index (`-1` = none selected yet) and the switch entries recorded so far,
each entry being `[channel index, time, shifted rx, shifted tx]`. -/
structure ShiftState where
  curr_mem : ℤ
  switch_times : List (ℤ × ℚ × ℚ × ℚ)

/-- One iteration of the `compute_shift_times` loop (src/doppler.py lines
207-215). -/
def shift_step (sat : Sat) (AOS : ℚ) (mems : List (ℚ × ℚ))
    (rx_freq tx_freq : ℚ) (st : ShiftState) (i : ℕ) : ShiftState :=
  let date := AOS + (i : ℚ) * SECOND
  let shifted_rx := shifted_rx_at sat AOS rx_freq tx_freq i
  let shifted_tx := shifted_tx_at sat AOS rx_freq tx_freq i
  let best_mem := best_channel shifted_rx mems
  if st.curr_mem < (mems.length : ℤ) - 1 ∧ st.curr_mem ≠ best_mem then
    { curr_mem := best_mem,
      switch_times :=
        st.switch_times ++ [(best_mem, date, shifted_rx, shifted_tx)] }
  else
    st

/-- The `compute_shift_times` loop state after its first `i` iterations. -/
def shift_state_at (sat : Sat) (AOS : ℚ) (mems : List (ℚ × ℚ))
    (rx_freq tx_freq : ℚ) (i : ℕ) : ShiftState :=
  (List.range i).foldl (shift_step sat AOS mems rx_freq tx_freq) ⟨-1, []⟩

/-- `compute_shift_times(obs, sat, AOS, LOS, mems, rx_freq, tx_freq)`
(src/doppler.py lines 201-217). -/
def compute_shift_times (sat : Sat) (AOS LOS : ℚ) (mems : List (ℚ × ℚ))
    (rx_freq tx_freq : ℚ) : List (ℤ × ℚ × ℚ × ℚ) :=
  (shift_state_at sat AOS mems rx_freq tx_freq
    (intervalsOf AOS LOS).toNat).switch_times

/-- A fixture satellite whose range velocity is identically zero, used to
instantiate universally quantified theorems at a concrete input. -/
def constSat : Sat := ⟨fun _ => 0⟩

/-- Fixture satellite for `compute_shift_times`: range velocity 0 at date 0
(shifted receive frequency 9 MHz for a 9 MHz carrier) and −C/2 afterwards
(shifted receive frequency 12 MHz). -/
def cexSat : Sat := ⟨fun d => if d = 0 then 0 else -(C / 2)⟩

/-- Fixture channel list: channel 0 at 12 MHz, channel 1 at 9 MHz. -/
def cexMems : List (ℚ × ℚ) := [(12, 0), (9, 0)]

/-- One pass of the accumulation loop in `main` (src/doppler.py lines
406-409): `zip(mem_set, average_memory)` truncates to the shorter list and
adds `mem_set`'s entries into `average_memory` in place; entries of
`average_memory` beyond the zipped prefix are unchanged. -/
def add_mem_set (average_memory mem_set : List (ℚ × ℚ)) : List (ℚ × ℚ) :=
  (List.zipWith (fun avg m => (avg.1 + m.1, avg.2 + m.2)) average_memory mem_set)
    ++ average_memory.drop mem_set.length

/-- The recommended-channel averaging of `main` (src/doppler.py lines
405-417): starting from `channels` pairs of zeros, accumulate entrywise
sums over the collected memory sets, then divide each entry by
`total_tests`. -/
def averaged_memory (memory_sets : List (List (ℚ × ℚ))) (channels : ℕ)
    (total_tests : ℚ) : List (ℚ × ℚ) :=
  (memory_sets.foldl add_mem_set (List.replicate channels (0, 0))).map
    fun m => (m.1 / total_tests, m.2 / total_tests)

/-- The `next_pass` tuple returned by `ephem` (indices 0-5): rise time,
rise azimuth, maximum-altitude time, maximum altitude (radians), set time,
set azimuth. -/
structure PassInfo where
  rise_time : ℚ
  rise_azimuth : ℚ
  max_alt_time : ℚ
  max_alt : ℚ
  set_time : ℚ
  set_azimuth : ℚ

/-- `(next_pass[3] * 360) / (2 * math.pi)` (src/doppler.py line 239). -/
def elevation_of (p : PassInfo) : ℚ := (p.max_alt * 360) / (2 * MATH_PI)

/-- The `while` loop of `next_high_pass` (src/doppler.py lines 237-243),
fuel-indexed.  `passes k` is the pass produced by the `k`-th call of
`obs.next_pass(sat)` (each call advances `obs.date` past that pass, so the
calls walk forward through the pass sequence).  The remaining arguments are
the loop variables: `elevation`, `limit`, the call counter, and the value
bound to `next_pass` so far (`none` while still unbound; returning `none`
then models the `NameError` caught by the bare `except`, which yields
`None`).  The result is `none` while the loop is still running after the
given fuel, `some r` once the function returns `r`. -/
def nhp_loop (passes : ℕ → PassInfo) (min_elevation : ℚ) :
    ℕ → ℚ → ℤ → ℕ → Option PassInfo → Option (Option PassInfo)
  | 0, _, _, _, _ => none
  | fuel + 1, elevation, limit, k, next_pass =>
    if elevation < min_elevation ∧ 0 < limit then
      nhp_loop passes min_elevation fuel (elevation_of (passes k)) (limit - 0)
        (k + 1) (some (passes k))
    else
      some (if 0 < limit then next_pass else none)

/-- `next_high_pass(obs, sat, min_elevation, limit)` (src/doppler.py lines
234-245), fuel-indexed. -/
def next_high_pass (passes : ℕ → PassInfo) (min_elevation : ℚ) (limit : ℤ)
    (fuel : ℕ) : Option (Option PassInfo) :=
  nhp_loop passes min_elevation fuel 0 limit 0 none

/-- Fixture pass whose maximum altitude is `math.pi` radians, i.e. an
elevation of exactly 180 degrees. -/
def flatPass : PassInfo := ⟨0, 0, 0, MATH_PI, 0, 0⟩

/-- Fixture pass sequence: every pass is `flatPass`. -/
def flatPasses : ℕ → PassInfo := fun _ => flatPass

end HamDoppler

namespace HamDoppler

/-- C1: `doppler_shift` returns `f0·10^6 − (C/(C+v))·(f0·10^6)`, the shift
`f0 − f` in Hz for a received frequency `f` with `f·(C+v) = f0·10^6·C`
(i.e. `f = f0·c/(c+v)`); equivalently the shift is `f0·10^6·v/(C+v)`. -/
theorem doppler_shift_spec (f0 v : ℚ) (h : C + v ≠ 0) :
    doppler_shift f0 v = f0 * 1000000 - (C / (C + v)) * (f0 * 1000000) ∧
    (f0 * 1000000 - doppler_shift f0 v) * (C + v) = f0 * 1000000 * C ∧
    doppler_shift f0 v = f0 * 1000000 * v / (C + v) := by
  refine ⟨rfl, ?_, ?_⟩
  · simp only [doppler_shift]
    field_simp
    ring
  · simp only [doppler_shift]
    field_simp
    ring

/-- Witness for C1 at `f0 = 10`, `v = 7000`. -/
theorem doppler_shift_spec_witness :
    C + 7000 ≠ 0 ∧
    (doppler_shift 10 7000 = 10 * 1000000 - (C / (C + 7000)) * (10 * 1000000) ∧
     (10 * 1000000 - doppler_shift 10 7000) * (C + 7000) = 10 * 1000000 * C ∧
     doppler_shift 10 7000 = 10 * 1000000 * 7000 / (C + 7000)) :=
  ⟨by norm_num [C], doppler_shift_spec 10 7000 (by norm_num [C])⟩

/-- C2: `doppler_convert` returns
`((f_orig·10^6 + f_shift)/(f_orig·10^6))·(f_new·10^6) − f_new·10^6`,
which for `f_orig ≠ 0` equals `f_shift·(f_new/f_orig)`. -/
theorem doppler_convert_spec (f_orig f_shift f_new : ℚ) (h : f_orig ≠ 0) :
    doppler_convert f_orig f_shift f_new =
      ((f_orig * 1000000 + f_shift) / (f_orig * 1000000)) * (f_new * 1000000)
        - f_new * 1000000 ∧
    doppler_convert f_orig f_shift f_new = f_shift * (f_new / f_orig) := by
  refine ⟨rfl, ?_⟩
  simp only [doppler_convert]
  field_simp
  ring

/-- Witness for C2 at `f_orig = 2`, `f_shift = 500`, `f_new = 6`. -/
theorem doppler_convert_spec_witness :
    (2 : ℚ) ≠ 0 ∧
    (doppler_convert 2 500 6 =
      ((2 * 1000000 + 500) / (2 * 1000000)) * (6 * 1000000) - 6 * 1000000 ∧
     doppler_convert 2 500 6 = 500 * (6 / 2)) :=
  ⟨by norm_num, doppler_convert_spec 2 500 6 (by norm_num)⟩

/-- C3: converting a shift agrees with recomputing it when the same velocity
applies to both frequencies:
`doppler_convert f_orig (doppler_shift f_orig v) f_new = doppler_shift f_new v`. -/
theorem doppler_convert_consistent (f_orig f_new v : ℚ)
    (h1 : f_orig ≠ 0) (h2 : C + v ≠ 0) :
    doppler_convert f_orig (doppler_shift f_orig v) f_new
      = doppler_shift f_new v := by
  simp only [doppler_convert, doppler_shift]
  field_simp
  ring

/-- Witness for C3 at `f_orig = 2`, `f_new = 6`, `v = 7000`. -/
theorem doppler_convert_consistent_witness :
    (2 : ℚ) ≠ 0 ∧ C + 7000 ≠ 0 ∧
    doppler_convert 2 (doppler_shift 2 7000) 6 = doppler_shift 6 7000 :=
  ⟨by norm_num, by norm_num [C],
    doppler_convert_consistent 2 6 7000 (by norm_num) (by norm_num [C])⟩

/-- C4: for `channels ≥ 2`, `compute_doppler_freqs` returns exactly
`channels` pairs, entry `i` being
`[rx_freq + (start_rx + i·(end_rx − start_rx)/(channels−1))/10^6,
  tx_freq + (start_tx + i·(end_tx − start_tx)/(channels−1))/10^6]`
where the start (resp. end) shifts are sampled by `compute_doppler` at
`AOS` (resp. `LOS`). -/
theorem compute_doppler_freqs_spec (sat : Sat) (AOS LOS : ℚ) (channels : ℤ)
    (rx_freq tx_freq : ℚ) (h : 2 ≤ channels) :
    ∃ mems : List (ℚ × ℚ),
      compute_doppler_freqs sat AOS LOS channels rx_freq tx_freq = Except.ok mems ∧
      (mems.length : ℤ) = channels ∧
      ∀ i : ℕ, ∀ hi : i < mems.length,
        mems.get ⟨i, hi⟩ =
          (rx_freq + ((compute_doppler sat AOS rx_freq tx_freq).1 +
              (i : ℚ) * (((compute_doppler sat LOS rx_freq tx_freq).1 -
                (compute_doppler sat AOS rx_freq tx_freq).1)
                  / ((channels : ℚ) - 1))) / 1000000,
           tx_freq + ((compute_doppler sat AOS rx_freq tx_freq).2 +
              (i : ℚ) * (((compute_doppler sat LOS rx_freq tx_freq).2 -
                (compute_doppler sat AOS rx_freq tx_freq).2)
                  / ((channels : ℚ) - 1))) / 1000000) := by
  have h2 : (2 : ℚ) ≤ (channels : ℚ) := by exact_mod_cast h
  have hne : ((channels : ℚ) - 1) ≠ 0 := by linarith
  refine ⟨(List.range channels.toNat).map fun (interval : ℕ) =>
        (rx_freq + ((compute_doppler sat AOS rx_freq tx_freq).1 +
            ((compute_doppler sat LOS rx_freq tx_freq).1 -
              (compute_doppler sat AOS rx_freq tx_freq).1) / ((channels : ℚ) - 1)
                * (interval : ℚ)) / 1000000,
         tx_freq + ((compute_doppler sat AOS rx_freq tx_freq).2 +
            ((compute_doppler sat LOS rx_freq tx_freq).2 -
              (compute_doppler sat AOS rx_freq tx_freq).2) / ((channels : ℚ) - 1)
                * (interval : ℚ)) / 1000000), ?_, ?_, ?_⟩
  · simp only [compute_doppler_freqs, pydiv, if_neg hne]
  · simp only [List.length_map, List.length_range]
    exact Int.toNat_of_nonneg (by omega)
  · intro i hi
    simp only [List.get_eq_getElem, List.getElem_map, List.getElem_range]
    simp only [Prod.mk.injEq]
    constructor <;> ring

/-- Witness for C4 at a zero-velocity satellite with `channels = 2`. -/
theorem compute_doppler_freqs_spec_witness :
    (2 : ℤ) ≤ 2 ∧
    ∃ mems : List (ℚ × ℚ),
      compute_doppler_freqs constSat 0 1 2 3 4 = Except.ok mems ∧
      (mems.length : ℤ) = 2 ∧
      ∀ i : ℕ, ∀ hi : i < mems.length,
        mems.get ⟨i, hi⟩ =
          (3 + ((compute_doppler constSat 0 3 4).1 +
              (i : ℚ) * (((compute_doppler constSat 1 3 4).1 -
                (compute_doppler constSat 0 3 4).1) / (((2 : ℤ) : ℚ) - 1))) / 1000000,
           4 + ((compute_doppler constSat 0 3 4).2 +
              (i : ℚ) * (((compute_doppler constSat 1 3 4).2 -
                (compute_doppler constSat 0 3 4).2) / (((2 : ℤ) : ℚ) - 1))) / 1000000) :=
  ⟨by decide, compute_doppler_freqs_spec constSat 0 1 2 3 4 (by decide)⟩

/-- C10: `compute_doppler_freqs` with `channels = 1` divides by zero
(`channels − 1 = 0`) and raises `ZeroDivisionError` instead of returning a
one-entry list, while `channels ≥ 2` makes both interval divisions defined
and the function return a list. -/
theorem compute_doppler_freqs_channels_one (sat : Sat) (AOS LOS rx_freq tx_freq : ℚ) :
    compute_doppler_freqs sat AOS LOS 1 rx_freq tx_freq
      = Except.error "ZeroDivisionError" ∧
    ∀ channels : ℤ, 2 ≤ channels →
      ∃ mems, compute_doppler_freqs sat AOS LOS channels rx_freq tx_freq
        = Except.ok mems := by
  constructor
  · norm_num [compute_doppler_freqs, pydiv]
  · intro channels h
    have h2 : (2 : ℚ) ≤ (channels : ℚ) := by exact_mod_cast h
    have hne : ((channels : ℚ) - 1) ≠ 0 := by linarith
    refine ⟨(List.range channels.toNat).map fun (interval : ℕ) =>
        (rx_freq + ((compute_doppler sat AOS rx_freq tx_freq).1 +
            ((compute_doppler sat LOS rx_freq tx_freq).1 -
              (compute_doppler sat AOS rx_freq tx_freq).1) / ((channels : ℚ) - 1)
                * (interval : ℚ)) / 1000000,
         tx_freq + ((compute_doppler sat AOS rx_freq tx_freq).2 +
            ((compute_doppler sat LOS rx_freq tx_freq).2 -
              (compute_doppler sat AOS rx_freq tx_freq).2) / ((channels : ℚ) - 1)
                * (interval : ℚ)) / 1000000), ?_⟩
    simp only [compute_doppler_freqs, pydiv, if_neg hne]

/-- C8: whenever the pass contains at least one whole second,
`compute_shift_graph` raises `ValueError` (it unpacks three names from the
two-element tuple returned by `compute_doppler`), so it never returns the
documented per-second data; for a pass shorter than one second it returns
the empty list. -/
theorem compute_shift_graph_spec (sat : Sat) (AOS LOS rx_freq tx_freq : ℚ) :
    (1 ≤ intervalsOf AOS LOS →
      compute_shift_graph sat AOS LOS rx_freq tx_freq
        = Except.error "ValueError") ∧
    (intervalsOf AOS LOS < 1 →
      compute_shift_graph sat AOS LOS rx_freq tx_freq = Except.ok []) := by
  constructor
  · intro h
    have hn : (intervalsOf AOS LOS).toNat ≠ 0 := by omega
    obtain ⟨i, rest, hl⟩ :
        ∃ i rest, List.range (intervalsOf AOS LOS).toNat = i :: rest := by
      rcases h2 : List.range (intervalsOf AOS LOS).toNat with _ | ⟨i, rest⟩
      · exact absurd (List.range_eq_nil.mp h2) hn
      · exact ⟨i, rest, rfl⟩
    rw [compute_shift_graph, hl]
    rfl
  · intro h
    have hn : (intervalsOf AOS LOS).toNat = 0 := by omega
    rw [compute_shift_graph, hn]
    rfl

/-- Witness for C8: a two-second pass errors, a half-second pass returns
the empty list. -/
theorem compute_shift_graph_spec_witness :
    (1 ≤ intervalsOf 0 (2/86400) ∧
      compute_shift_graph constSat 0 (2/86400) 3 4
        = Except.error "ValueError") ∧
    (intervalsOf 0 (1/172800) < 1 ∧
      compute_shift_graph constSat 0 (1/172800) 3 4 = Except.ok []) := by
  have h1 : 1 ≤ intervalsOf 0 (2/86400) := by
    norm_num [intervalsOf, SECOND, MINUTE, HOUR]
  have h2 : intervalsOf 0 (1/172800) < 1 := by
    norm_num [intervalsOf, SECOND, MINUTE, HOUR]
  exact ⟨⟨h1, (compute_shift_graph_spec constSat 0 (2/86400) 3 4).1 h1⟩,
         ⟨h2, (compute_shift_graph_spec constSat 0 (1/172800) 3 4).2 h2⟩⟩

/-- Witness for C10 at a zero-velocity satellite. -/
theorem compute_doppler_freqs_channels_one_witness :
    compute_doppler_freqs constSat 0 1 1 3 4 = Except.error "ZeroDivisionError" ∧
    ((2 : ℤ) ≤ 2 ∧
      ∃ mems, compute_doppler_freqs constSat 0 1 2 3 4 = Except.ok mems) :=
  ⟨(compute_doppler_freqs_channels_one constSat 0 1 3 4).1,
   by decide,
   (compute_doppler_freqs_channels_one constSat 0 1 3 4).2 2 (by decide)⟩

/-- Unfolding lemma: one more iteration of the `compute_shift_times` loop. -/
theorem shift_state_at_succ (sat : Sat) (AOS : ℚ) (mems : List (ℚ × ℚ))
    (rx_freq tx_freq : ℚ) (i : ℕ) :
    shift_state_at sat AOS mems rx_freq tx_freq (i + 1)
      = shift_step sat AOS mems rx_freq tx_freq
          (shift_state_at sat AOS mems rx_freq tx_freq i) i := by
  simp only [shift_state_at, List.range_succ, List.foldl_append,
    List.foldl_cons, List.foldl_nil]

/-- C5 (amended): at each sampled second of the pass, if the selected
channel is not the last stored channel and the stored channel nearest the
instantaneous Doppler-shifted receive frequency differs from the selected
channel, then a switch entry carrying that nearest channel's index and the
current time is appended. -/
theorem compute_shift_times_switch_step (sat : Sat) (AOS LOS : ℚ)
    (mems : List (ℚ × ℚ)) (rx_freq tx_freq : ℚ) (i : ℕ)
    (hmem : mems ≠ [])
    (hi : i < (intervalsOf AOS LOS).toNat)
    (hlast : (shift_state_at sat AOS mems rx_freq tx_freq i).curr_mem
      < (mems.length : ℤ) - 1)
    (hdiff : best_channel (shifted_rx_at sat AOS rx_freq tx_freq i) mems
      ≠ (shift_state_at sat AOS mems rx_freq tx_freq i).curr_mem) :
    (shift_state_at sat AOS mems rx_freq tx_freq (i + 1)).switch_times
      = (shift_state_at sat AOS mems rx_freq tx_freq i).switch_times ++
        [(best_channel (shifted_rx_at sat AOS rx_freq tx_freq i) mems,
          AOS + (i : ℚ) * SECOND,
          shifted_rx_at sat AOS rx_freq tx_freq i,
          shifted_tx_at sat AOS rx_freq tx_freq i)] := by
  rw [shift_state_at_succ]
  simp only [shift_step]
  rw [if_pos ⟨hlast, Ne.symm hdiff⟩]

/-- Witness for the amended C5, at second 0 of the fixture pass: channel 1
(9 MHz) is nearest the 9 MHz shifted frequency, no channel is selected yet,
and the switch entry `(1, AOS, 9 MHz, 0 MHz)` is appended. -/
theorem compute_shift_times_switch_step_witness :
    cexMems ≠ [] ∧
    0 < (intervalsOf 0 (2/86400)).toNat ∧
    (shift_state_at cexSat 0 cexMems 9 0 0).curr_mem
      < (cexMems.length : ℤ) - 1 ∧
    best_channel (shifted_rx_at cexSat 0 9 0 0) cexMems
      ≠ (shift_state_at cexSat 0 cexMems 9 0 0).curr_mem ∧
    (shift_state_at cexSat 0 cexMems 9 0 (0 + 1)).switch_times
      = (shift_state_at cexSat 0 cexMems 9 0 0).switch_times ++
        [(best_channel (shifted_rx_at cexSat 0 9 0 0) cexMems,
          0 + ((0 : ℕ) : ℚ) * SECOND,
          shifted_rx_at cexSat 0 9 0 0,
          shifted_tx_at cexSat 0 9 0 0)] := by
  have h1 : cexMems ≠ [] := by simp [cexMems]
  have h2 : 0 < (intervalsOf 0 (2/86400)).toNat := by
    have h : intervalsOf 0 (2/86400) = 2 := by
      norm_num [intervalsOf, SECOND, MINUTE, HOUR]
    omega
  have h3 : (shift_state_at cexSat 0 cexMems 9 0 0).curr_mem
      < (cexMems.length : ℤ) - 1 := by
    norm_num [shift_state_at, cexMems]
  have h4 : best_channel (shifted_rx_at cexSat 0 9 0 0) cexMems
      ≠ (shift_state_at cexSat 0 cexMems 9 0 0).curr_mem := by
    norm_num [shift_state_at, shifted_rx_at, compute_doppler, doppler_shift,
      best_channel, best_channel_aux, cexSat, cexMems, C, SECOND, MINUTE, HOUR]
  exact ⟨h1, h2, h3, h4,
    compute_shift_times_switch_step cexSat 0 (2/86400) cexMems 9 0 0 h1 h2 h3 h4⟩

/-- C5 counterexample: at second 1 of this two-second pass the stored
channel nearest the instantaneous Doppler-shifted receive frequency is
channel 0 while the selected channel is channel 1, yet no switch entry is
appended (the code's extra guard `curr_mem < len(mems) - 1` fails), and
the full run returns a single entry. -/
theorem compute_shift_times_missed_switch :
    cexMems ≠ [] ∧
    1 < (intervalsOf 0 (2/86400)).toNat ∧
    best_channel (shifted_rx_at cexSat 0 9 0 1) cexMems
      ≠ (shift_state_at cexSat 0 cexMems 9 0 1).curr_mem ∧
    (shift_state_at cexSat 0 cexMems 9 0 (1 + 1)).switch_times
      = (shift_state_at cexSat 0 cexMems 9 0 1).switch_times ∧
    compute_shift_times cexSat 0 (2/86400) cexMems 9 0 = [(1, 0, 9, 0)] := by
  have hint : intervalsOf 0 (2/86400) = 2 := by
    norm_num [intervalsOf, SECOND, MINUTE, HOUR]
  have hst1 : shift_state_at cexSat 0 cexMems 9 0 1
      = ⟨1, [(1, 0, 9, 0)]⟩ := by
    norm_num [shift_state_at, List.range_succ, shift_step, shifted_rx_at,
      shifted_tx_at, compute_doppler, doppler_shift, best_channel,
      best_channel_aux, cexSat, cexMems, C, SECOND, MINUTE, HOUR]
  have hb1 : best_channel (shifted_rx_at cexSat 0 9 0 1) cexMems = 0 := by
    norm_num [shifted_rx_at, compute_doppler, doppler_shift, best_channel,
      best_channel_aux, cexSat, cexMems, C, SECOND, MINUTE, HOUR]
  have hst2 : shift_state_at cexSat 0 cexMems 9 0 (1 + 1)
      = shift_state_at cexSat 0 cexMems 9 0 1 := by
    rw [shift_state_at_succ]
    simp only [shift_step, hst1]
    rw [if_neg]
    intro hcond
    exact absurd hcond.1 (by norm_num [cexMems])
  refine ⟨by simp [cexMems], by omega, ?_, ?_, ?_⟩
  · rw [hb1, hst1]
    norm_num
  · rw [hst2]
  · simp only [compute_shift_times, hint]
    show (shift_state_at cexSat 0 cexMems 9 0 (1 + 1)).switch_times
      = [(1, 0, 9, 0)]
    rw [hst2, hst1]

/-- `SECOND` is positive. -/
theorem second_pos : (0 : ℚ) < SECOND := by
  norm_num [SECOND, MINUTE, HOUR]

/-- Loop invariant of `compute_shift_times`: after `i` iterations, every
recorded entry's time is `AOS + j·SECOND` for some `j < i`, and the
recorded times are strictly increasing. -/
theorem shift_state_at_times (sat : Sat) (AOS : ℚ) (mems : List (ℚ × ℚ))
    (rx_freq tx_freq : ℚ) (i : ℕ) :
    (∀ e ∈ (shift_state_at sat AOS mems rx_freq tx_freq i).switch_times,
      ∃ j : ℕ, j < i ∧ e.2.1 = AOS + (j : ℚ) * SECOND) ∧
    List.Pairwise (· < ·)
      (((shift_state_at sat AOS mems rx_freq tx_freq i).switch_times).map
        fun e => e.2.1) := by
  induction i with
  | zero =>
    constructor
    · intro e he
      exact absurd he (List.not_mem_nil e)
    · exact List.Pairwise.nil
  | succ n ih =>
    rw [shift_state_at_succ]
    simp only [shift_step]
    by_cases hc : (shift_state_at sat AOS mems rx_freq tx_freq n).curr_mem
        < (mems.length : ℤ) - 1 ∧
        (shift_state_at sat AOS mems rx_freq tx_freq n).curr_mem
          ≠ best_channel (shifted_rx_at sat AOS rx_freq tx_freq n) mems
    · rw [if_pos hc]
      constructor
      · intro e he
        rcases List.mem_append.mp he with hold | hnew
        · obtain ⟨j, hj, hje⟩ := ih.1 e hold
          exact ⟨j, Nat.lt_succ_of_lt hj, hje⟩
        · refine ⟨n, Nat.lt_succ_self n, ?_⟩
          rw [List.mem_singleton.mp hnew]
      · rw [List.map_append, List.pairwise_append]
        refine ⟨ih.2, List.pairwise_singleton _ _, ?_⟩
        intro a ha b hb
        simp only [List.map_cons, List.map_nil, List.mem_singleton] at hb
        subst hb
        obtain ⟨e, he, hea⟩ := List.mem_map.mp ha
        obtain ⟨j, hj, hje⟩ := ih.1 e he
        rw [← hea, hje]
        have hcast : ((j : ℚ)) < ((n : ℚ)) := by exact_mod_cast hj
        have := mul_lt_mul_of_pos_right hcast second_pos
        linarith
    · rw [if_neg hc]
      refine ⟨fun e he => ?_, ih.2⟩
      obtain ⟨j, hj, hje⟩ := ih.1 e he
      exact ⟨j, Nat.lt_succ_of_lt hj, hje⟩

/-- C6: `compute_shift_times` walks the pass second-by-second: every
returned entry's time equals `AOS + i·SECOND` for some natural
`i < ⌊(LOS − AOS)·86400⌋`, successive times are strictly increasing, and
every time lies in `[AOS, LOS)`. -/
theorem compute_shift_times_walk (sat : Sat) (AOS LOS : ℚ)
    (mems : List (ℚ × ℚ)) (rx_freq tx_freq : ℚ) :
    List.Pairwise (· < ·)
      ((compute_shift_times sat AOS LOS mems rx_freq tx_freq).map
        fun e => e.2.1) ∧
    ∀ e ∈ compute_shift_times sat AOS LOS mems rx_freq tx_freq,
      ∃ i : ℕ, (i : ℤ) < intervalsOf AOS LOS ∧
        e.2.1 = AOS + (i : ℚ) * SECOND ∧ AOS ≤ e.2.1 ∧ e.2.1 < LOS := by
  have hinv := shift_state_at_times sat AOS mems rx_freq tx_freq
    (intervalsOf AOS LOS).toNat
  refine ⟨hinv.2, ?_⟩
  intro e he
  obtain ⟨j, hj, hje⟩ := hinv.1 e he
  have hjz : (j : ℤ) < intervalsOf AOS LOS := by omega
  have hS0 : SECOND ≠ 0 := ne_of_gt second_pos
  have hjq : ((j : ℕ) : ℚ) < (LOS - AOS) / SECOND := by
    calc ((j : ℕ) : ℚ) < ((intervalsOf AOS LOS : ℤ) : ℚ) := by exact_mod_cast hjz
    _ ≤ (LOS - AOS) / SECOND := Int.floor_le _
  have hmul : ((j : ℕ) : ℚ) * SECOND < LOS - AOS := by
    have h := (lt_div_iff₀ second_pos).mp hjq
    linarith
  refine ⟨j, hjz, hje, ?_, ?_⟩
  · rw [hje]
    have : (0 : ℚ) ≤ (j : ℚ) * SECOND :=
      mul_nonneg (Nat.cast_nonneg j) (le_of_lt second_pos)
    linarith
  · rw [hje]
    linarith

/-- Witness for C6: a one-second pass over a zero-velocity satellite with a
single stored channel records the switch entry `(0, AOS, 8 MHz, 0 MHz)`,
whose time satisfies all three conclusions. -/
theorem compute_shift_times_walk_witness :
    ((0 : ℤ), (0 : ℚ), (8 : ℚ), (0 : ℚ))
      ∈ compute_shift_times constSat 0 (1/86400) [(8, 0)] 8 0 ∧
    ∃ i : ℕ, (i : ℤ) < intervalsOf 0 (1/86400) ∧
      (0 : ℚ) = 0 + (i : ℚ) * SECOND ∧ (0 : ℚ) ≤ 0 ∧ (0 : ℚ) < 1/86400 := by
  have hint : intervalsOf 0 (1/86400) = 1 := by
    norm_num [intervalsOf, SECOND, MINUTE, HOUR]
  have hmem : ((0 : ℤ), (0 : ℚ), (8 : ℚ), (0 : ℚ))
      ∈ compute_shift_times constSat 0 (1/86400) [(8, 0)] 8 0 := by
    simp only [compute_shift_times, hint]
    show _ ∈ (shift_state_at constSat 0 [(8, 0)] 8 0 1).switch_times
    norm_num [shift_state_at, List.range_succ, shift_step, shifted_rx_at,
      shifted_tx_at, compute_doppler, doppler_shift, best_channel,
      best_channel_aux, constSat, C, SECOND, MINUTE, HOUR]
  exact ⟨hmem,
    (compute_shift_times_walk constSat 0 (1/86400) [(8, 0)] 8 0).2 _ hmem⟩

/-- Length of one accumulation pass when the zipped lists have equal
length. -/
theorem add_mem_set_length (acc ms : List (ℚ × ℚ))
    (hlen : ms.length = acc.length) :
    (add_mem_set acc ms).length = acc.length := by
  rw [add_mem_set, List.length_append, List.length_zipWith, List.length_drop]
  omega

/-- Entrywise effect of one accumulation pass when the zipped lists have
equal length. -/
theorem add_mem_set_getD (acc ms : List (ℚ × ℚ))
    (hlen : ms.length = acc.length) (k : ℕ) (hk : k < acc.length) :
    (add_mem_set acc ms).getD k (0, 0) =
      ((acc.getD k (0, 0)).1 + (ms.getD k (0, 0)).1,
       (acc.getD k (0, 0)).2 + (ms.getD k (0, 0)).2) := by
  have hdrop : acc.drop ms.length = [] := by
    rw [hlen]
    exact List.drop_length acc
  have hzlen : (List.zipWith (fun avg m => (avg.1 + m.1, avg.2 + m.2))
      acc ms).length = acc.length := by
    rw [List.length_zipWith, hlen, min_self]
  rw [add_mem_set, hdrop, List.append_nil]
  rw [List.getD_eq_getElem _ _ (by rw [hzlen]; exact hk)]
  rw [List.getElem_zipWith]
  rw [List.getD_eq_getElem _ _ hk]
  rw [List.getD_eq_getElem _ _ (show k < ms.length by omega)]

/-- Invariant of the accumulation loop of `main`: folding `add_mem_set`
over memory sets of length `channels` adds, at each index `k`, the sums of
the sets' entries at `k` onto the accumulator. -/
theorem foldl_add_mem_set_spec (channels : ℕ) (sets : List (List (ℚ × ℚ))) :
    ∀ acc : List (ℚ × ℚ), acc.length = channels →
      (∀ ms ∈ sets, ms.length = channels) →
      (sets.foldl add_mem_set acc).length = channels ∧
      ∀ k : ℕ, k < channels →
        (sets.foldl add_mem_set acc).getD k (0, 0) =
          ((acc.getD k (0, 0)).1
              + (sets.map fun ms => (ms.getD k (0, 0)).1).sum,
           (acc.getD k (0, 0)).2
              + (sets.map fun ms => (ms.getD k (0, 0)).2).sum) := by
  induction sets with
  | nil =>
    intro acc hacc _
    exact ⟨hacc, fun k hk => by simp⟩
  | cons ms rest ih =>
    intro acc hacc hall
    have hms : ms.length = acc.length := by
      rw [hacc]
      exact hall ms (List.mem_cons_self ms rest)
    have hlen1 : (add_mem_set acc ms).length = channels := by
      rw [add_mem_set_length acc ms hms]
      exact hacc
    have hrest := ih (add_mem_set acc ms) hlen1
      (fun m hm => hall m (List.mem_cons_of_mem ms hm))
    rw [List.foldl_cons]
    refine ⟨hrest.1, fun k hk => ?_⟩
    rw [hrest.2 k hk, add_mem_set_getD acc ms hms k (by rw [hacc]; exact hk)]
    simp only [List.map_cons, List.sum_cons, Prod.mk.injEq]
    exact ⟨by ring, by ring⟩

/-- C7: with exactly `total_tests` collected memory sets, each of length
`channels`, the averaging step of `main` produces at each index `k` the
arithmetic mean over the sets of the receive (resp. transmit) entries at
index `k`. -/
theorem averaged_memory_mean (memory_sets : List (List (ℚ × ℚ)))
    (channels : ℕ) (total_tests : ℕ)
    (hcount : memory_sets.length = total_tests)
    (hlen : ∀ ms ∈ memory_sets, ms.length = channels)
    (k : ℕ) (hk : k < channels) :
    (averaged_memory memory_sets channels (total_tests : ℚ)).length
      = channels ∧
    (averaged_memory memory_sets channels (total_tests : ℚ)).getD k (0, 0) =
      ((memory_sets.map fun ms => (ms.getD k (0, 0)).1).sum
          / (total_tests : ℚ),
       (memory_sets.map fun ms => (ms.getD k (0, 0)).2).sum
          / (total_tests : ℚ)) := by
  have hbase : (List.replicate channels ((0 : ℚ), (0 : ℚ))).length = channels :=
    List.length_replicate channels _
  have hfold := foldl_add_mem_set_spec channels memory_sets
    (List.replicate channels (0, 0)) hbase hlen
  constructor
  · rw [averaged_memory, List.length_map]
    exact hfold.1
  · have hgd := hfold.2 k hk
    have hrep : (List.replicate channels ((0 : ℚ), (0 : ℚ))).getD k (0, 0)
        = (0, 0) := by
      rw [List.getD_eq_getElem _ _ (by rw [hbase]; exact hk),
        List.getElem_replicate]
    rw [hrep] at hgd
    have hklen : k < (memory_sets.foldl add_mem_set
        (List.replicate channels (0, 0))).length := by
      rw [hfold.1]
      exact hk
    rw [List.getD_eq_getElem _ _ hklen] at hgd
    rw [averaged_memory]
    rw [List.getD_eq_getElem _ _
      (by rw [List.length_map]; exact hklen)]
    rw [List.getElem_map, hgd]
    simp only [Prod.mk.injEq]
    constructor <;> ring

/-- Witness for C7: two one-channel memory sets `[(1, 2)]` and `[(3, 4)]`
averaged over `total_tests = 2`. -/
theorem averaged_memory_mean_witness :
    ([[((1 : ℚ), (2 : ℚ))], [((3 : ℚ), (4 : ℚ))]].length = 2) ∧
    (∀ ms ∈ [[((1 : ℚ), (2 : ℚ))], [((3 : ℚ), (4 : ℚ))]], ms.length = 1) ∧
    0 < 1 ∧
    ((averaged_memory [[((1 : ℚ), (2 : ℚ))], [((3 : ℚ), (4 : ℚ))]] 1
        ((2 : ℕ) : ℚ)).length = 1 ∧
      (averaged_memory [[((1 : ℚ), (2 : ℚ))], [((3 : ℚ), (4 : ℚ))]] 1
        ((2 : ℕ) : ℚ)).getD 0 (0, 0) =
        (([[((1 : ℚ), (2 : ℚ))], [((3 : ℚ), (4 : ℚ))]].map
            fun ms => (ms.getD 0 (0, 0)).1).sum / ((2 : ℕ) : ℚ),
         ([[((1 : ℚ), (2 : ℚ))], [((3 : ℚ), (4 : ℚ))]].map
            fun ms => (ms.getD 0 (0, 0)).2).sum / ((2 : ℕ) : ℚ))) :=
  ⟨by simp, by simp, by decide,
    averaged_memory_mean [[(1, 2)], [(3, 4)]] 1 2 (by simp) (by simp) 0
      (by decide)⟩

/-- The `limit` loop variable of `next_high_pass` never changes
(`limit -= 0`), so any two positive initial limits give identical
behaviour at every fuel. -/
theorem nhp_loop_limit_irrel (passes : ℕ → PassInfo) (min_elevation : ℚ) :
    ∀ (fuel : ℕ) (elevation : ℚ) (limit limit2 : ℤ) (k : ℕ)
      (curr : Option PassInfo), 0 < limit → 0 < limit2 →
      nhp_loop passes min_elevation fuel elevation limit k curr
        = nhp_loop passes min_elevation fuel elevation limit2 k curr := by
  intro fuel
  induction fuel with
  | zero =>
    intro e l l2 k c h1 h2
    rfl
  | succ n ih =>
    intro e l l2 k c h1 h2
    by_cases he : e < min_elevation
    · simp only [nhp_loop]
      rw [if_pos ⟨he, h1⟩, if_pos ⟨he, h2⟩]
      exact ih _ _ _ _ _ (by omega) (by omega)
    · simp only [nhp_loop]
      rw [if_neg (show ¬(e < min_elevation ∧ 0 < l) from fun hc => he hc.1),
        if_neg (show ¬(e < min_elevation ∧ 0 < l2) from fun hc => he hc.1),
        if_pos h1, if_pos h2]

/-- If the first pass meeting the threshold is the `n`-th one examined,
the loop returns it (with the `limit > 0` guard still true), given at
least `n + 2` fuel. -/
theorem nhp_loop_finds (passes : ℕ → PassInfo) (min_elevation : ℚ) :
    ∀ (n fuel k : ℕ) (elevation : ℚ) (limit : ℤ) (curr : Option PassInfo),
      0 < limit → elevation < min_elevation →
      (∀ j : ℕ, j < n → elevation_of (passes (k + j)) < min_elevation) →
      min_elevation ≤ elevation_of (passes (k + n)) →
      n + 2 ≤ fuel →
      nhp_loop passes min_elevation fuel elevation limit k curr
        = some (some (passes (k + n))) := by
  intro n
  induction n with
  | zero =>
    intro fuel k e limit curr hlim he _ hfound hfuel
    rw [Nat.add_zero] at hfound ⊢
    obtain ⟨f, rfl⟩ : ∃ f, fuel = f + 1 := ⟨fuel - 1, by omega⟩
    simp only [nhp_loop]
    rw [if_pos ⟨he, hlim⟩]
    obtain ⟨g, rfl⟩ : ∃ g, f = g + 1 := ⟨f - 1, by omega⟩
    simp only [nhp_loop]
    rw [if_neg (fun hc => absurd hfound (not_le_of_lt hc.1)),
      if_pos (show (0 : ℤ) < limit - 0 by omega)]
  | succ n ih =>
    intro fuel k e limit curr hlim he hbelow hfound hfuel
    obtain ⟨f, rfl⟩ : ∃ f, fuel = f + 1 := ⟨fuel - 1, by omega⟩
    simp only [nhp_loop]
    rw [if_pos ⟨he, hlim⟩]
    have h0 : elevation_of (passes (k + 0)) < min_elevation :=
      hbelow 0 (Nat.succ_pos n)
    rw [Nat.add_zero] at h0
    have hb2 : ∀ j : ℕ, j < n →
        elevation_of (passes (k + 1 + j)) < min_elevation := by
      intro j hj
      have h := hbelow (j + 1) (by omega)
      have heq : k + (j + 1) = k + 1 + j := by omega
      rwa [heq] at h
    have hf2 : min_elevation ≤ elevation_of (passes (k + 1 + n)) := by
      have heq : k + (n + 1) = k + 1 + n := by omega
      rwa [heq] at hfound
    have heqg : k + (n + 1) = k + 1 + n := by omega
    rw [heqg]
    exact ih f (k + 1) (elevation_of (passes k)) (limit - 0)
      (some (passes k)) (by omega) h0 hb2 hf2 (by omega)

/-- If no pass ever meets the threshold, the loop never returns. -/
theorem nhp_loop_diverges (passes : ℕ → PassInfo) (min_elevation : ℚ)
    (hall : ∀ n : ℕ, elevation_of (passes n) < min_elevation) :
    ∀ (fuel : ℕ) (elevation : ℚ) (limit : ℤ) (k : ℕ)
      (curr : Option PassInfo), 0 < limit → elevation < min_elevation →
      nhp_loop passes min_elevation fuel elevation limit k curr = none := by
  intro fuel
  induction fuel with
  | zero =>
    intro e l k c h1 h2
    rfl
  | succ n ih =>
    intro e l k c h1 h2
    simp only [nhp_loop]
    rw [if_pos ⟨h2, h1⟩]
    exact ih _ _ _ _ (by omega) (hall k)

/-- C9: `next_high_pass` never decreases `limit` (`limit -= 0`), so `limit`
does not bound the number of passes checked: for any positive initial
limit the behaviour is independent of the limit's value, the loop runs
until the first pass with elevation at least `min_elevation` and returns
it (the `limit > 0` guard on the return being always true), and if no pass
ever reaches `min_elevation` the loop never terminates. -/
theorem next_high_pass_spec (passes : ℕ → PassInfo) (min_elevation : ℚ)
    (limit : ℤ) (hlim : 0 < limit) (hmin : 0 < min_elevation) :
    (∀ limit2 : ℤ, 0 < limit2 → ∀ fuel : ℕ,
      next_high_pass passes min_elevation limit2 fuel
        = next_high_pass passes min_elevation limit fuel) ∧
    (∀ n : ℕ, min_elevation ≤ elevation_of (passes n) →
      (∀ m : ℕ, m < n → elevation_of (passes m) < min_elevation) →
      ∀ fuel : ℕ, n + 2 ≤ fuel →
        next_high_pass passes min_elevation limit fuel
          = some (some (passes n))) ∧
    ((∀ n : ℕ, elevation_of (passes n) < min_elevation) →
      ∀ fuel : ℕ, next_high_pass passes min_elevation limit fuel = none) := by
  refine ⟨?_, ?_, ?_⟩
  · intro limit2 h2 fuel
    exact nhp_loop_limit_irrel passes min_elevation fuel 0 limit2 limit
      0 none h2 hlim
  · intro n hfound hbelow fuel hfuel
    have h := nhp_loop_finds passes min_elevation n fuel 0 0 limit none
      hlim hmin (fun j hj => by simpa using hbelow j hj)
      (by simpa using hfound) hfuel
    simpa [next_high_pass] using h
  · intro hall fuel
    exact nhp_loop_diverges passes min_elevation hall fuel 0 limit
      0 none hlim hmin

/-- Witness for C9: over a pass sequence whose every pass has elevation
180 degrees, `next_high_pass` with `min_elevation = 5`, `limit = 25` and
fuel 2 returns the first pass. -/
theorem next_high_pass_spec_witness :
    (0 : ℤ) < 25 ∧ (0 : ℚ) < 5 ∧
    next_high_pass flatPasses 5 25 2 = some (some (flatPasses 0)) := by
  have h5 : (5 : ℚ) ≤ elevation_of (flatPasses 0) := by
    norm_num [elevation_of, flatPasses, flatPass, MATH_PI]
  refine ⟨by decide, by norm_num, ?_⟩
  exact (next_high_pass_spec flatPasses 5 25 (by decide) (by norm_num)).2.1
    0 h5 (fun m hm => absurd hm (Nat.not_lt_zero m)) 2 (by omega)

end HamDoppler
